import Mathlib

/-!
Verification of the log-file reading and reporting pipeline (`main.py`):
`parse_logs`, `AverageResponseTimeReport.generate`, `UserAgentReport.generate`
and the report dispatch in `main`.

The embedding models JSON values as an inductive type `JVal`, files as lists
of line strings, and the Python exceptions that can escape the pipeline
(`json.JSONDecodeError`, the `ValueError`/`TypeError` raised by
`datetime.fromisoformat`, and the `TypeError`s raised by unhashable dict keys
and by adding a non-numeric value to a number) as an error type `PErr`
threaded through `Except`.
-/

/-- A JSON value as produced by `json.loads`: `null`, booleans, numbers
(ints and floats both modelled as rationals), strings, arrays and objects. -/
inductive JVal where
  | null : JVal
  | bool : Bool → JVal
  | num : ℚ → JVal
  | str : String → JVal
  | arr : List JVal → JVal
  | obj : List (String × JVal) → JVal

/-- Python truthiness of a JSON-derived value (`if endpoint`):
`None`, `False`, `0`, `""`, `[]` and `{}` are falsy. -/
def jTruthy : JVal → Bool
  | .null => false
  | .bool b => b
  | .num q => q != 0
  | .str s => s != ""
  | .arr xs => !xs.isEmpty
  | .obj fs => !fs.isEmpty

/-- Whether the value is JSON `null` (Python `None`). -/
def jIsNull : JVal → Bool
  | .null => true
  | _ => false

/-- Python hashability of a JSON-derived value: lists and dicts are
unhashable, so using one as a dict key raises `TypeError`. -/
def jHashable : JVal → Bool
  | .arr _ => false
  | .obj _ => false
  | _ => true

/-- The numeric value of a JSON-derived value for Python `+`:
numbers are themselves, `True`/`False` are `1`/`0`, everything else
raises `TypeError` when added to a number. -/
def jToAddend : JVal → Option ℚ
  | .num q => some q
  | .bool b => some (if b then 1 else 0)
  | _ => none

/-- Canonical form of a value for Python dict-key equality: Python has
`True == 1` and `1 == 1.0`, so booleans are identified with their numeric
value (numbers are already a single type here). -/
def pyKey : JVal → JVal
  | .bool b => .num (if b then 1 else 0)
  | v => v

/-- Structural equality of scalar (hashable) JSON values. -/
def pyScalarEq : JVal → JVal → Bool
  | .null, .null => true
  | .num p, .num q => p == q
  | .str s, .str t => s == t
  | _, _ => false

/-- Python equality as used for dict keys in this program: `True == 1`,
`1 == 1.0`, scalars of different kinds are unequal. Unhashable values
(arrays, objects) can never be dict keys, so any comparison involving one
is conservatively `false`. -/
def pyEq (a b : JVal) : Bool := pyScalarEq (pyKey a) (pyKey b)

/-- Lookup of a string key in a decoded JSON object (`dict.get` /
`in` test); JSON object keys are strings, compared by string equality. -/
def jLookup (r : JVal) (k : String) : Option JVal :=
  match r with
  | .obj fs => (fs.find? (fun p => p.1 == k)).map (·.2)
  | _ => none

/-- A calendar date, the result of `datetime.date()`. -/
structure Date where
  year : Nat
  month : Nat
  day : Nat
deriving DecidableEq, Repr

/-- Days in a month of the proleptic Gregorian calendar, as used by
`datetime` for validity checking. -/
def daysInMonth (y m : Nat) : Nat :=
  if m = 2 then
    if y % 4 = 0 ∧ (y % 100 ≠ 0 ∨ y % 400 = 0) then 29 else 28
  else if m = 4 ∨ m = 6 ∨ m = 9 ∨ m = 11 then 30
  else 31

def isDigitChar (c : Char) : Bool := '0' ≤ c ∧ c ≤ '9'

def digitVal (c : Char) : Nat := c.toNat - '0'.toNat

/-- Read a run of exactly `n` digits as a number. -/
def readDigits : Nat → List Char → Option Nat
  | 0, _ => some 0
  | _ + 1, [] => none
  | n + 1, c :: cs =>
    if isDigitChar c then
      (readDigits n cs).map (fun v => digitVal c * 10 ^ n + v)
    else none

/-- Modelled from the stdlib: validity of the `HH:MM[:SS]` time-of-day part
accepted by `datetime.fromisoformat` (fractional seconds and timezone
offsets, which this repository's data never uses, are not modelled and are
conservatively rejected). -/
def validTimePart (cs : List Char) : Bool :=
  match cs with
  | [h1, h2, ':', m1, m2] =>
    match readDigits 2 [h1, h2], readDigits 2 [m1, m2] with
    | some h, some m => h < 24 ∧ m < 60
    | _, _ => false
  | [h1, h2, ':', m1, m2, ':', s1, s2] =>
    match readDigits 2 [h1, h2], readDigits 2 [m1, m2], readDigits 2 [s1, s2] with
    | some h, some m, some s => h < 24 ∧ m < 60 ∧ s < 60
    | _, _, _ => false
  | _ => false

/-- JSON whitespace accepted between tokens by `json.loads`. -/
def jsonWs (c : Char) : Bool := c = ' ' ∨ c = '\t' ∨ c = '\n' ∨ c = '\r'

def skipWs : List Char → List Char
  | [] => []
  | c :: cs => if jsonWs c then skipWs cs else c :: cs

def hexVal (c : Char) : Option Nat :=
  if isDigitChar c then some (digitVal c)
  else if 'a' ≤ c ∧ c ≤ 'f' then some (c.toNat - 'a'.toNat + 10)
  else if 'A' ≤ c ∧ c ≤ 'F' then some (c.toNat - 'A'.toNat + 10)
  else none

/-- The character denoted by a single-character JSON escape. -/
def escChar : Char → Option Char
  | '"' => some '"'
  | '\\' => some '\\'
  | '/' => some '/'
  | 'b' => some (Char.ofNat 8)
  | 'f' => some (Char.ofNat 12)
  | 'n' => some '\n'
  | 'r' => some '\r'
  | 't' => some '\t'
  | _ => none

/-- Parse the body of a JSON string (opening quote already consumed),
returning its characters and the remaining input. Raw control characters
are rejected, escapes are decoded, a `\uXXXX` escape yields the character
with that code. -/
def parseStringChars : List Char → Option (List Char × List Char)
  | [] => none
  | '"' :: rest => some ([], rest)
  | '\\' :: 'u' :: h1 :: h2 :: h3 :: h4 :: rest =>
    match hexVal h1, hexVal h2, hexVal h3, hexVal h4 with
    | some a, some b, some c, some d =>
      (parseStringChars rest).map
        (fun p => (Char.ofNat (a * 4096 + b * 256 + c * 16 + d) :: p.1, p.2))
    | _, _, _, _ => none
  | '\\' :: c :: rest =>
    match escChar c with
    | some e => (parseStringChars rest).map (fun p => (e :: p.1, p.2))
    | none => none
  | c :: rest =>
    if c.toNat < 32 then none
    else (parseStringChars rest).map (fun p => (c :: p.1, p.2))

def takeDigits : List Char → (List Char × List Char)
  | [] => ([], [])
  | c :: cs =>
    if isDigitChar c then
      let p := takeDigits cs
      (c :: p.1, p.2)
    else ([], c :: cs)

def digitsToNat (ds : List Char) : Nat := ds.foldl (fun acc c => 10 * acc + digitVal c) 0

/-- Parse a JSON number (grammar of `json.loads`: optional minus, integer
part with no leading zero, optional fraction, optional exponent) as an
exact rational. `NaN`/`Infinity`, which never occur in this repository's
data, are not modelled. -/
def parseNumber (cs : List Char) : Option (ℚ × List Char) :=
  let sgn : Bool × List Char := match cs with | '-' :: t => (true, t) | _ => (false, cs)
  match takeDigits sgn.2 with
  | ([], _) => none
  | (ds, cs2) =>
    if 1 < ds.length ∧ ds.headI = '0' then none
    else
      let fracPart : Option (List Char × List Char) :=
        match cs2 with
        | '.' :: t =>
          match takeDigits t with
          | ([], _) => none
          | (fds, cs3) => some (fds, cs3)
        | _ => some ([], cs2)
      match fracPart with
      | none => none
      | some (fds, cs3) =>
        let expPart : Option (Int × List Char) :=
          match cs3 with
          | 'e' :: t | 'E' :: t =>
            let esgn : Bool × List Char :=
              match t with
              | '-' :: t2 => (true, t2)
              | '+' :: t2 => (false, t2)
              | _ => (false, t)
            match takeDigits esgn.2 with
            | ([], _) => none
            | (eds, cs4) =>
              some (if esgn.1 then -(digitsToNat eds : Int) else (digitsToNat eds : Int), cs4)
          | _ => some (0, cs3)
        match expPart with
        | none => none
        | some (e, cs4) =>
          let mant : ℚ := (digitsToNat ds : ℚ) + (digitsToNat fds : ℚ) / (10 ^ fds.length : ℚ)
          let scaled : ℚ :=
            if 0 ≤ e then mant * (10 ^ e.toNat : ℚ) else mant / (10 ^ (-e).toNat : ℚ)
          some (if sgn.1 then -scaled else scaled, cs4)

/-- Insert a key-value pair into an object the way Python dicts do:
a duplicate key keeps its first position but takes the new value. -/
def objInsert (fs : List (String × JVal)) (k : String) (v : JVal) : List (String × JVal) :=
  match fs with
  | [] => [(k, v)]
  | (k0, v0) :: t => if k0 == k then (k0, v) :: t else (k0, v0) :: objInsert t k v

def dedupPairs (ps : List (String × JVal)) : List (String × JVal) :=
  ps.foldl (fun acc p => objInsert acc p.1 p.2) []

mutual

/-- Parse one JSON value, fuel-bounded. -/
def parseVal : Nat → List Char → Option (JVal × List Char)
  | 0, _ => none
  | fuel + 1, cs =>
    match skipWs cs with
    | 'n' :: 'u' :: 'l' :: 'l' :: rest => some (.null, rest)
    | 't' :: 'r' :: 'u' :: 'e' :: rest => some (.bool true, rest)
    | 'f' :: 'a' :: 'l' :: 's' :: 'e' :: rest => some (.bool false, rest)
    | '"' :: rest => (parseStringChars rest).map (fun p => (.str (String.mk p.1), p.2))
    | '[' :: rest =>
      match skipWs rest with
      | ']' :: rest2 => some (.arr [], rest2)
      | _ => (parseItems fuel rest).map (fun p => (.arr p.1, p.2))
    | '{' :: rest =>
      match skipWs rest with
      | '}' :: rest2 => some (.obj [], rest2)
      | _ => (parseMembers fuel rest).map (fun p => (.obj (dedupPairs p.1), p.2))
    | cs2 => (parseNumber cs2).map (fun p => (.num p.1, p.2))

/-- Parse the comma-separated items of a non-empty JSON array, including
the closing bracket. -/
def parseItems : Nat → List Char → Option (List JVal × List Char)
  | 0, _ => none
  | fuel + 1, cs =>
    match parseVal fuel cs with
    | none => none
    | some (v, rest) =>
      match skipWs rest with
      | ',' :: rest2 => (parseItems fuel rest2).map (fun p => (v :: p.1, p.2))
      | ']' :: rest2 => some ([v], rest2)
      | _ => none

/-- Parse the comma-separated members of a non-empty JSON object, including
the closing brace. -/
def parseMembers : Nat → List Char → Option (List (String × JVal) × List Char)
  | 0, _ => none
  | fuel + 1, cs =>
    match skipWs cs with
    | '"' :: rest =>
      match parseStringChars rest with
      | none => none
      | some (kcs, rest2) =>
        match skipWs rest2 with
        | ':' :: rest3 =>
          match parseVal fuel rest3 with
          | none => none
          | some (v, rest4) =>
            match skipWs rest4 with
            | ',' :: rest5 =>
              (parseMembers fuel rest5).map (fun p => ((String.mk kcs, v) :: p.1, p.2))
            | '}' :: rest5 => some ([(String.mk kcs, v)], rest5)
            | _ => none
        | _ => none
    | _ => none

end

/-- Modelled from the stdlib: `json.loads` on one line of input — parse a
single JSON value surrounded by optional whitespace, `none` where Python
raises `json.JSONDecodeError`. -/
def jsonDecode (s : String) : Option JVal :=
  match parseVal (2 * s.length + 8) s.toList with
  | some (v, rest) => if (skipWs rest).isEmpty then some v else none
  | none => none

/-- Modelled from the stdlib: `datetime.fromisoformat(s).date()` for the
`YYYY-MM-DD[&lt;sep&gt;HH:MM[:SS]]` forms (sep is `T` or a space), returning
`none` where `fromisoformat` raises `ValueError`. -/
def fromisoformatDate (s : String) : Option Date :=
  match s.toList with
  | y1 :: y2 :: y3 :: y4 :: '-' :: m1 :: m2 :: '-' :: d1 :: d2 :: rest =>
    match readDigits 4 [y1, y2, y3, y4], readDigits 2 [m1, m2], readDigits 2 [d1, d2] with
    | some y, some m, some d =>
      if 1 ≤ m ∧ m ≤ 12 ∧ 1 ≤ d ∧ d ≤ daysInMonth y m then
        match rest with
        | [] => some ⟨y, m, d⟩
        | sep :: time =>
          if (sep = 'T' ∨ sep = ' ') ∧ validTimePart time then some ⟨y, m, d⟩
          else none
      else none
    | _, _, _ => none
  | _ => none

/-- The Python exceptions that can escape the pipeline:
`json.JSONDecodeError` (carrying only data derived from the failing line's
text), the `TypeError`/`ValueError` raised by `datetime.fromisoformat`,
the `TypeError` raised by indexing a dict with an unhashable key, and the
`TypeError` raised by adding a non-numeric value to a number. -/
inductive PErr where
  | decodeError : String → PErr
  | timestampTypeError : PErr
  | timestampValueError : String → PErr
  | unhashableKeyError : PErr
  | addTypeError : PErr
deriving DecidableEq, Repr

/-- Per-endpoint accumulator: `{'count': 0, 'total_response_time': 0}`. -/
structure EpStat where
  count : Nat
  total : ℚ

/-- The `endpoint_stats` defaultdict of `parse_logs`, as an
insertion-ordered association list keyed by (hashable) JSON values. -/
abbrev EndpointStats := List (JVal × EpStat)

/-- Read an endpoint's accumulator; first entry whose key is Python-equal. -/
def statsLookup (st : EndpointStats) (e : JVal) : Option EpStat :=
  (st.find? (fun p => pyEq p.1 e)).map (·.2)

/-- `endpoint_stats[endpoint]['count'] += 1` followed by
`endpoint_stats[endpoint]['total_response_time'] += response_time`:
update the first Python-equal key in place, or append a fresh entry
(defaultdict materializes the zero entry, then both fields are bumped). -/
def statsBump (st : EndpointStats) (e : JVal) (rt : ℚ) : EndpointStats :=
  match st with
  | [] => [(e, ⟨1, rt⟩)]
  | (k, s) :: t =>
    if pyEq k e then (k, ⟨s.count + 1, s.total + rt⟩) :: t
    else (k, s) :: statsBump t e rt

/-- The count recorded for an endpoint, `0` when the key is absent
(defaultdict read semantics without materialization). -/
def countOf (st : EndpointStats) (e : JVal) : Nat :=
  match statsLookup st e with
  | some s => s.count
  | none => 0

/-- The total response time recorded for an endpoint, `0` when absent. -/
def totalOf (st : EndpointStats) (e : JVal) : ℚ :=
  match statsLookup st e with
  | some s => s.total
  | none => 0

/-- Line 84: `datetime.fromisoformat(log_entry['@timestamp']).date() if
'@timestamp' in log_entry else None`, with the exceptions `fromisoformat`
can raise. -/
def recordDate (r : JVal) : Except PErr (Option Date) :=
  match jLookup r "@timestamp" with
  | none => .ok none
  | some (.str s) =>
    match fromisoformatDate s with
    | some d => .ok (some d)
    | none => .error (.timestampValueError s)
  | some _ => .error .timestampTypeError

/-- The date a record's timestamp denotes, when the record has a string
timestamp that parses; `none` otherwise. Agrees with the date `parse_logs`
computes on every record it processes without raising. -/
def recordDateOpt (r : JVal) : Option Date :=
  match jLookup r "@timestamp" with
  | some (.str s) => fromisoformatDate s
  | _ => none

/-- Lines 90-96: extract `url` and `response_time` and, when the endpoint
is truthy and the response time is not `None`, update the stats —
raising `TypeError` for an unhashable key or a non-addable value. -/
def contribStep (st : EndpointStats) (r : JVal) : Except PErr EndpointStats :=
  let endpoint := (jLookup r "url").getD .null
  let response_time := (jLookup r "response_time").getD .null
  if jTruthy endpoint && !jIsNull response_time then
    if jHashable endpoint then
      match jToAddend response_time with
      | some q => .ok (statsBump st endpoint q)
      | none => .error .addTypeError
    else .error .unhashableKeyError
  else .ok st

/-- Lines 83-96: the body of the per-line loop of `parse_logs` after the
record has been appended to `logs` — compute the record's date, apply the
optional date filter (`if report_date and log_date != report_date:
continue`), then contribute to the endpoint stats. -/
def processRecord (report_date : Option Date) (st : EndpointStats) (r : JVal) :
    Except PErr EndpointStats :=
  match recordDate r with
  | .error e => .error e
  | .ok log_date =>
    match report_date with
    | none => contribStep st r
    | some d => if log_date = some d then contribStep st r else .ok st

/-- Lines 79-96: process the lines of one file in order; each line is
decoded by `json.loads` (a failure aborts the whole run), appended to
`logs`, and folded into the endpoint stats. -/
def processLines (report_date : Option Date) (acc : EndpointStats × List JVal) :
    List String → Except PErr (EndpointStats × List JVal)
  | [] => .ok acc
  | line :: rest =>
    match jsonDecode line with
    | none => .error (.decodeError line)
    | some r =>
      match processRecord report_date acc.1 r with
      | .error e => .error e
      | .ok st => processLines report_date (st, acc.2 ++ [r]) rest

/-- Lines 77-96: process the given files in order. -/
def processFiles (report_date : Option Date) (acc : EndpointStats × List JVal) :
    List (List String) → Except PErr (EndpointStats × List JVal)
  | [] => .ok acc
  | f :: fs =>
    match processLines report_date acc f with
    | .error e => .error e
    | .ok acc2 => processFiles report_date acc2 fs

/-- `parse_logs(file_paths, report_date=None)`: files are given by their
line contents; returns the endpoint stats and the raw record list, or the
first exception raised. -/
def parse_logs (files : List (List String)) (report_date : Option Date := none) :
    Except PErr (EndpointStats × List JVal) :=
  processFiles report_date ([], []) files

/-- `AverageResponseTimeReport.generate`: one row per endpoint in mapping
(insertion) order, `(endpoint, count, total/count if count > 0 else 0)`,
together with the report's title. -/
def AverageResponseTimeReport.generate (title : String) (endpoint_stats : EndpointStats) :
    List (JVal × Nat × ℚ) × String :=
  (endpoint_stats.foldl
    (fun report_data p =>
      report_data ++
        [(p.1, p.2.count, if 0 < p.2.count then p.2.total / (p.2.count : ℚ) else 0)])
    [], title)

/-- The agent value a record is tallied under:
`log_entry.get('http_user_agent', 'Unknown')`. -/
def agentKey (r : JVal) : JVal := (jLookup r "http_user_agent").getD (.str "Unknown")

/-- `user_agent_stats[user_agent] += 1` on a `defaultdict(int)`: bump the
first Python-equal key or append a fresh entry with count 1. -/
def bumpAgent (m : List (JVal × Nat)) (k : JVal) : List (JVal × Nat) :=
  match m with
  | [] => [(k, 1)]
  | (k0, n) :: t => if pyEq k0 k then (k0, n + 1) :: t else (k0, n) :: bumpAgent t k

/-- The tally loop of `UserAgentReport.generate`; indexing the defaultdict
with an unhashable agent value raises `TypeError`. -/
def agentFold (m : List (JVal × Nat)) : List JVal → Except PErr (List (JVal × Nat))
  | [] => .ok m
  | r :: rest =>
    if jHashable (agentKey r) then agentFold (bumpAgent m (agentKey r)) rest
    else .error .unhashableKeyError

/-- `UserAgentReport.generate`: tally every record under its agent value
(missing field → `'Unknown'`), then list `(agent, count)` pairs in dict
(first-encounter) order, together with the report's title. -/
def UserAgentReport.generate (title : String) (logs : List JVal) :
    Except PErr (List (JVal × Nat) × String) :=
  match agentFold [] logs with
  | .error e => .error e
  | .ok m => .ok (m, title)

/-- What `main` prints after parsing: a report (title then rows) or the
unsupported-kind message. -/
inductive MainOutput where
  | averageReport : String → List (JVal × Nat × ℚ) → MainOutput
  | agentReport : String → List (JVal × Nat) → MainOutput
  | message : String → MainOutput

/-- Lines 113-136 of `main`: run `parse_logs`, dispatch on the requested
report kind, and describe what is printed. An unsupported kind prints a
message and returns normally. -/
def mainRun (files : List (List String)) (reportKind : String) (date : Option Date) :
    Except PErr MainOutput :=
  match parse_logs files date with
  | .error e => .error e
  | .ok (endpoint_stats, logs) =>
    if reportKind = "average" then
      let g := AverageResponseTimeReport.generate "Average Response Time Report" endpoint_stats
      .ok (.averageReport g.2 g.1)
    else if reportKind = "user-agent" then
      match UserAgentReport.generate "User Agent Report" logs with
      | .error e => .error e
      | .ok g => .ok (.agentReport g.2 g.1)
    else .ok (.message "Currently, only 'average' and 'user-agent' report types are supported.")

/-- The date-filter test a record must pass to contribute to the endpoint
stats: no filter, or the record's timestamp denotes exactly the filter
date (a record with no or an unparsed timestamp never passes a filter). -/
def dateOK (report_date : Option Date) (r : JVal) : Bool :=
  match report_date with
  | none => true
  | some d => decide (recordDateOpt r = some d)

/-- The key a contributing record is tallied under: its `url` value
(`None` when the field is absent). -/
def contribKey (r : JVal) : JVal := (jLookup r "url").getD .null

/-- The amount a contributing record adds to `totalResponseTime`. -/
def contribVal (r : JVal) : ℚ := (jToAddend ((jLookup r "response_time").getD .null)).getD 0

/-- Whether a record contributes to the endpoint stats at all: it passes
the date filter, its `url` is truthy and its `response_time` is present
and not `null`. -/
def contributes (report_date : Option Date) (r : JVal) : Bool :=
  dateOK report_date r && jTruthy (contribKey r) &&
    !jIsNull ((jLookup r "response_time").getD .null)

/-- Whether a record contributes to the stats of the endpoint `e`. -/
def contributesTo (report_date : Option Date) (e : JVal) (r : JVal) : Bool :=
  contributes report_date r && pyEq (contribKey r) e

/-- Number of records of `rs` contributing to endpoint `e`. -/
def codeCount (report_date : Option Date) (e : JVal) (rs : List JVal) : Nat :=
  (rs.filter (contributesTo report_date e)).length

/-- Sum of the response times of the records of `rs` contributing to `e`. -/
def codeTotal (report_date : Option Date) (e : JVal) (rs : List JVal) : ℚ :=
  ((rs.filter (contributesTo report_date e)).map contribVal).sum

/-- Follows the spec's words for claim C1 (for comparison with the code):
the number of records having `url` present and equal to `e` and a present,
non-null `response_time`, restricted by the date filter. Unlike the code,
presence rather than truthiness of `url` is required. -/
def specC1Count (report_date : Option Date) (e : JVal) (rs : List JVal) : Nat :=
  (rs.filter (fun r =>
    ((jLookup r "url").map (fun u => pyEq u e)).getD false &&
      !((jLookup r "response_time").map jIsNull).getD true &&
      dateOK report_date r)).length

/-- The result of a successful run, for building concrete witnesses. -/
def okOr (r : Except PErr (EndpointStats × List JVal)) : EndpointStats × List JVal :=
  match r with
  | .ok a => a
  | .error _ => ([], [])

theorem pyEq_symm (a b : JVal) : pyEq a b = pyEq b a := by
  unfold pyEq pyScalarEq
  cases pyKey a <;> cases pyKey b <;> simp [BEq.comm]

theorem pyEq_trans {a b c : JVal} (h1 : pyEq a b = true) (h2 : pyEq b c = true) :
    pyEq a c = true := by
  unfold pyEq pyScalarEq at *
  cases hA : pyKey a <;> cases hB : pyKey b <;> cases hC : pyKey c <;>
    simp_all [beq_iff_eq]

theorem countOf_cons (k : JVal) (s : EpStat) (t : EndpointStats) (e : JVal) :
    countOf ((k, s) :: t) e = if pyEq k e then s.count else countOf t e := by
  simp only [countOf, statsLookup, List.find?]
  cases h : pyEq k e <;> simp [h]

theorem totalOf_cons (k : JVal) (s : EpStat) (t : EndpointStats) (e : JVal) :
    totalOf ((k, s) :: t) e = if pyEq k e then s.total else totalOf t e := by
  simp only [totalOf, statsLookup, List.find?]
  cases h : pyEq k e <;> simp [h]

theorem pyEq_left_congr {k u : JVal} (hk : pyEq k u = true) (e : JVal) :
    pyEq k e = pyEq u e := by
  cases hue : pyEq u e
  · cases hke : pyEq k e
    · rfl
    · have huk : pyEq u k = true := pyEq_symm k u ▸ hk
      have : pyEq u e = true := pyEq_trans huk hke
      rw [hue] at this
      exact absurd this (by simp)
  · exact pyEq_trans hk hue

theorem pyEq_of_ne_left {k u e : JVal} (hk : pyEq k u = false) (hke : pyEq k e = true) :
    pyEq u e = false := by
  cases hue : pyEq u e
  · rfl
  · have heu : pyEq e u = true := pyEq_symm u e ▸ hue
    have : pyEq k u = true := pyEq_trans hke heu
    rw [hk] at this
    exact absurd this (by simp)

theorem countOf_statsBump (st : EndpointStats) (u : JVal) (q : ℚ) (e : JVal) :
    countOf (statsBump st u q) e = countOf st e + (if pyEq u e then 1 else 0) := by
  induction st with
  | nil =>
    cases h : pyEq u e <;>
      simp [statsBump, countOf, statsLookup, List.find?, h]
  | cons p t ih =>
    obtain ⟨k, s⟩ := p
    by_cases hk : pyEq k u = true
    · simp only [statsBump, hk, if_true, countOf_cons, pyEq_left_congr hk e]
      cases hue : pyEq u e <;> simp [countOf_cons, hue]
    · have hk2 : pyEq k u = false := by simpa using hk
      simp only [statsBump, hk2, Bool.false_eq_true, if_false, countOf_cons]
      cases hke : pyEq k e
      · simp [ih]
      · simp [pyEq_of_ne_left hk2 hke]

theorem totalOf_statsBump (st : EndpointStats) (u : JVal) (q : ℚ) (e : JVal) :
    totalOf (statsBump st u q) e = totalOf st e + (if pyEq u e then q else 0) := by
  induction st with
  | nil =>
    cases h : pyEq u e <;>
      simp [statsBump, totalOf, statsLookup, List.find?, h]
  | cons p t ih =>
    obtain ⟨k, s⟩ := p
    by_cases hk : pyEq k u = true
    · simp only [statsBump, hk, if_true, totalOf_cons, pyEq_left_congr hk e]
      cases hue : pyEq u e <;> simp [totalOf_cons, hue]
    · have hk2 : pyEq k u = false := by simpa using hk
      simp only [statsBump, hk2, Bool.false_eq_true, if_false, totalOf_cons]
      cases hke : pyEq k e
      · simp [ih]
      · simp [pyEq_of_ne_left hk2 hke]

theorem recordDate_ok {r : JVal} {ld : Option Date} (h : recordDate r = .ok ld) :
    recordDateOpt r = ld := by
  unfold recordDate at h
  unfold recordDateOpt
  cases hl : jLookup r "@timestamp" with
  | none =>
    simp only [hl] at h
    simp only [hl]
    exact (Except.ok.inj h)
  | some v =>
    cases v with
    | str s =>
      simp only [hl] at h
      simp only [hl]
      cases hd : fromisoformatDate s with
      | none =>
        simp only [hd] at h
        exact absurd h (by simp)
      | some d =>
        simp only [hd] at h
        exact Except.ok.inj h
    | null => simp only [hl] at h; exact absurd h (by simp)
    | bool b => simp only [hl] at h; exact absurd h (by simp)
    | num q => simp only [hl] at h; exact absurd h (by simp)
    | arr xs => simp only [hl] at h; exact absurd h (by simp)
    | obj fs => simp only [hl] at h; exact absurd h (by simp)

theorem recordDateOpt_some {r : JVal} {d : Date} (h : recordDateOpt r = some d) :
    recordDate r = .ok (some d) := by
  unfold recordDateOpt at h
  unfold recordDate
  cases hl : jLookup r "@timestamp" with
  | none =>
    simp only [hl] at h
    exact absurd h (by simp)
  | some v =>
    cases v with
    | str s =>
      simp only [hl] at h
      simp only [hl, h]
    | null => simp only [hl] at h; exact absurd h (by simp)
    | bool b => simp only [hl] at h; exact absurd h (by simp)
    | num q => simp only [hl] at h; exact absurd h (by simp)
    | arr xs => simp only [hl] at h; exact absurd h (by simp)
    | obj fs => simp only [hl] at h; exact absurd h (by simp)

theorem contribStep_ok {st st' : EndpointStats} {r : JVal}
    (h : contribStep st r = .ok st') :
    st' = if jTruthy (contribKey r) && !jIsNull ((jLookup r "response_time").getD .null)
      then statsBump st (contribKey r) (contribVal r) else st := by
  simp only [contribStep] at h
  simp only [contribKey, contribVal]
  cases hc : (jTruthy ((jLookup r "url").getD .null) &&
      !jIsNull ((jLookup r "response_time").getD .null)) with
  | false =>
    simp only [hc, Bool.false_eq_true, if_false] at h ⊢
    exact (Except.ok.inj h).symm
  | true =>
    simp only [hc, if_true] at h ⊢
    cases hh : jHashable ((jLookup r "url").getD .null) with
    | false =>
      simp only [hh, Bool.false_eq_true, if_false] at h
      exact absurd h (by simp)
    | true =>
      simp only [hh, if_true] at h
      cases ha : jToAddend ((jLookup r "response_time").getD .null) with
      | none =>
        simp only [ha] at h
        exact absurd h (by simp)
      | some q =>
        simp only [ha] at h
        simp only [ha, Option.getD_some]
        exact (Except.ok.inj h).symm

theorem processRecord_ok {d? : Option Date} {st st' : EndpointStats} {r : JVal}
    (h : processRecord d? st r = .ok st') :
    st' = if contributes d? r then statsBump st (contribKey r) (contribVal r) else st := by
  unfold processRecord at h
  cases hrd : recordDate r with
  | error e =>
    simp only [hrd] at h
    exact absurd h (by simp)
  | ok ld =>
    simp only [hrd] at h
    have hopt : recordDateOpt r = ld := recordDate_ok hrd
    cases d? with
    | none =>
      have hcontr : contributes none r =
          (jTruthy (contribKey r) && !jIsNull ((jLookup r "response_time").getD .null)) := by
        simp [contributes, dateOK]
      rw [hcontr]
      exact contribStep_ok h
    | some d =>
      have h2 : (if ld = some d then contribStep st r else Except.ok st) = Except.ok st' := h
      by_cases hld : ld = some d
      · rw [if_pos hld] at h2
        have hcontr : contributes (some d) r =
            (jTruthy (contribKey r) && !jIsNull ((jLookup r "response_time").getD .null)) := by
          simp [contributes, dateOK, hopt, hld]
        rw [hcontr]
        exact contribStep_ok h2
      · rw [if_neg hld] at h2
        have hcontr : contributes (some d) r = false := by
          simp [contributes, dateOK, hopt, hld]
        rw [hcontr]
        simp only [Bool.false_eq_true, if_false]
        exact (Except.ok.inj h2).symm

theorem contributesTo_eq (d? : Option Date) (e : JVal) (r : JVal) :
    contributesTo d? e r = (contributes d? r && pyEq (contribKey r) e) := rfl

theorem codeCount_cons (d? : Option Date) (e : JVal) (r : JVal) (rs : List JVal) :
    codeCount d? e (r :: rs) =
      (if contributesTo d? e r then 1 else 0) + codeCount d? e rs := by
  simp only [codeCount, List.filter]
  cases h : contributesTo d? e r <;> simp [h, Nat.add_comm]

theorem codeTotal_cons (d? : Option Date) (e : JVal) (r : JVal) (rs : List JVal) :
    codeTotal d? e (r :: rs) =
      (if contributesTo d? e r then contribVal r else 0) + codeTotal d? e rs := by
  simp only [codeTotal, List.filter]
  cases h : contributesTo d? e r <;> simp [h]

theorem processLines_ok {d? : Option Date} {lines : List String}
    {st0 st : EndpointStats} {l0 l : List JVal}
    (h : processLines d? (st0, l0) lines = .ok (st, l)) :
    l = l0 ++ lines.filterMap jsonDecode ∧
    (∀ line ∈ lines, (jsonDecode line).isSome = true) ∧
    (∀ e, countOf st e = countOf st0 e + codeCount d? e (lines.filterMap jsonDecode)) ∧
    (∀ e, totalOf st e = totalOf st0 e + codeTotal d? e (lines.filterMap jsonDecode)) := by
  induction lines generalizing st0 l0 with
  | nil =>
    have h2 : (st0, l0) = (st, l) := Except.ok.inj h
    cases h2
    simp [codeCount, codeTotal]
  | cons line rest ih =>
    simp only [processLines] at h
    cases hdec : jsonDecode line with
    | none =>
      simp only [hdec] at h
      exact absurd h (by simp)
    | some r =>
      simp only [hdec] at h
      cases hpr : processRecord d? st0 r with
      | error e =>
        simp only [hpr] at h
        exact absurd h (by simp)
      | ok st1 =>
        simp only [hpr] at h
        obtain ⟨ha, hb, hc, hd2⟩ := ih h
        have hst1 := processRecord_ok hpr
        have hfm : (line :: rest).filterMap jsonDecode = r :: rest.filterMap jsonDecode := by
          simp [List.filterMap_cons, hdec]
        refine ⟨?_, ?_, ?_, ?_⟩
        · rw [ha, hfm]
          simp
        · intro line2 hmem
          rcases List.mem_cons.mp hmem with h1 | h1
          · subst h1
            simp [hdec]
          · exact hb _ h1
        · intro e
          rw [hfm, codeCount_cons]
          have hcount := hc e
          by_cases hcontr : contributes d? r = true
          · rw [hst1, if_pos hcontr, countOf_statsBump] at hcount
            have hto : contributesTo d? e r = pyEq (contribKey r) e := by
              simp [contributesTo, hcontr]
            rw [hcount, hto]
            cases hpe : pyEq (contribKey r) e <;> simp [hpe] <;> omega
          · have hcf : contributes d? r = false := by simpa using hcontr
            rw [hst1, hcf] at hcount
            simp only [Bool.false_eq_true, if_false] at hcount
            have hto : contributesTo d? e r = false := by
              simp [contributesTo, hcf]
            rw [hcount, hto]
            simp [Nat.add_comm]
        · intro e
          rw [hfm, codeTotal_cons]
          have htot := hd2 e
          by_cases hcontr : contributes d? r = true
          · rw [hst1, if_pos hcontr, totalOf_statsBump] at htot
            have hto : contributesTo d? e r = pyEq (contribKey r) e := by
              simp [contributesTo, hcontr]
            rw [htot, hto]
            cases hpe : pyEq (contribKey r) e <;> simp [hpe] <;> ring
          · have hcf : contributes d? r = false := by simpa using hcontr
            rw [hst1, hcf] at htot
            simp only [Bool.false_eq_true, if_false] at htot
            have hto : contributesTo d? e r = false := by
              simp [contributesTo, hcf]
            rw [htot, hto]
            simp

theorem codeCount_append (d? : Option Date) (e : JVal) (as bs : List JVal) :
    codeCount d? e (as ++ bs) = codeCount d? e as + codeCount d? e bs := by
  simp [codeCount, List.filter_append]

theorem codeTotal_append (d? : Option Date) (e : JVal) (as bs : List JVal) :
    codeTotal d? e (as ++ bs) = codeTotal d? e as + codeTotal d? e bs := by
  simp [codeTotal, List.filter_append]

theorem processFiles_ok {d? : Option Date} {fs : List (List String)}
    {st0 st : EndpointStats} {l0 l : List JVal}
    (h : processFiles d? (st0, l0) fs = .ok (st, l)) :
    l = l0 ++ fs.join.filterMap jsonDecode ∧
    (∀ line ∈ fs.join, (jsonDecode line).isSome = true) ∧
    (∀ e, countOf st e = countOf st0 e + codeCount d? e (fs.join.filterMap jsonDecode)) ∧
    (∀ e, totalOf st e = totalOf st0 e + codeTotal d? e (fs.join.filterMap jsonDecode)) := by
  induction fs generalizing st0 l0 with
  | nil =>
    have h2 : (st0, l0) = (st, l) := Except.ok.inj h
    cases h2
    simp [codeCount, codeTotal]
  | cons f rest ih =>
    simp only [processFiles] at h
    cases hpl : processLines d? (st0, l0) f with
    | error e =>
      simp only [hpl] at h
      exact absurd h (by simp)
    | ok acc2 =>
      simp only [hpl] at h
      obtain ⟨st1, l1⟩ := acc2
      obtain ⟨ha1, hb1, hc1, hd1⟩ := processLines_ok hpl
      obtain ⟨ha2, hb2, hc2, hd2⟩ := ih h
      have hjoin : (f :: rest).join = f ++ rest.join := by simp
      have hfm : (f :: rest).join.filterMap jsonDecode =
          f.filterMap jsonDecode ++ rest.join.filterMap jsonDecode := by
        rw [hjoin, List.filterMap_append]
      refine ⟨?_, ?_, ?_, ?_⟩
      · rw [ha2, ha1, hfm, List.append_assoc]
      · intro line hmem
        rw [hjoin] at hmem
        rcases List.mem_append.mp hmem with h1 | h1
        · exact hb1 _ h1
        · exact hb2 _ h1
      · intro e
        rw [hfm, codeCount_append, hc2 e, hc1 e]
        omega
      · intro e
        rw [hfm, codeTotal_append, hd2 e, hd1 e]
        ring

theorem countOf_nil (e : JVal) : countOf [] e = 0 := rfl

theorem totalOf_nil (e : JVal) : totalOf [] e = 0 := rfl

/-- Master characterization of a successful `parse_logs` run: every line
decoded, the raw list is exactly the decoded lines in file order then line
order, and each endpoint's count and total are the count and response-time
sum of the records that contribute to it. -/
theorem parse_logs_ok {fs : List (List String)} {d? : Option Date}
    {st : EndpointStats} {l : List JVal}
    (h : parse_logs fs d? = .ok (st, l)) :
    l = fs.join.filterMap jsonDecode ∧
    (∀ line ∈ fs.join, (jsonDecode line).isSome = true) ∧
    (∀ e, countOf st e = codeCount d? e l) ∧
    (∀ e, totalOf st e = codeTotal d? e l) := by
  obtain ⟨ha, hb, hc, hd2⟩ := processFiles_ok h
  rw [List.nil_append] at ha
  refine ⟨ha, hb, ?_, ?_⟩
  · intro e
    rw [hc e, countOf_nil, ha, Nat.zero_add]
  · intro e
    rw [hd2 e, totalOf_nil, ha, zero_add]

theorem statsBump_counts_pos {st : EndpointStats} (u : JVal) (q : ℚ)
    (hst : ∀ p ∈ st, 1 ≤ p.2.count) : ∀ p ∈ statsBump st u q, 1 ≤ p.2.count := by
  induction st with
  | nil =>
    intro p hp
    simp only [statsBump, List.mem_singleton] at hp
    subst hp
    exact Nat.le_refl 1
  | cons hd t ih =>
    obtain ⟨k, s⟩ := hd
    intro p hp
    by_cases hk : pyEq k u = true
    · simp only [statsBump, hk, if_true, List.mem_cons] at hp
      rcases hp with h1 | h1
      · subst h1
        exact Nat.succ_le_succ (Nat.zero_le _)
      · exact hst p (List.mem_cons_of_mem _ h1)
    · have hk2 : pyEq k u = false := by simpa using hk
      simp only [statsBump, hk2, Bool.false_eq_true, if_false, List.mem_cons] at hp
      rcases hp with h1 | h1
      · subst h1
        exact hst (k, s) (List.mem_cons_self _ _)
      · exact ih (fun p2 hp2 => hst p2 (List.mem_cons_of_mem _ hp2)) p h1

theorem processRecord_counts_pos {d? : Option Date} {st st' : EndpointStats} {r : JVal}
    (h : processRecord d? st r = .ok st') (hst : ∀ p ∈ st, 1 ≤ p.2.count) :
    ∀ p ∈ st', 1 ≤ p.2.count := by
  rw [processRecord_ok h]
  by_cases hc : contributes d? r = true
  · rw [if_pos hc]
    exact statsBump_counts_pos _ _ hst
  · rw [if_neg hc]
    exact hst

theorem processLines_counts_pos {d? : Option Date} {lines : List String}
    {st0 st : EndpointStats} {l0 l : List JVal}
    (h : processLines d? (st0, l0) lines = .ok (st, l))
    (hst : ∀ p ∈ st0, 1 ≤ p.2.count) : ∀ p ∈ st, 1 ≤ p.2.count := by
  induction lines generalizing st0 l0 with
  | nil =>
    have h2 : (st0, l0) = (st, l) := Except.ok.inj h
    cases h2
    exact hst
  | cons line rest ih =>
    simp only [processLines] at h
    cases hdec : jsonDecode line with
    | none =>
      simp only [hdec] at h
      exact absurd h (by simp)
    | some r =>
      simp only [hdec] at h
      cases hpr : processRecord d? st0 r with
      | error e =>
        simp only [hpr] at h
        exact absurd h (by simp)
      | ok st1 =>
        simp only [hpr] at h
        exact ih h (processRecord_counts_pos hpr hst)

theorem processFiles_counts_pos {d? : Option Date} {fs : List (List String)}
    {st0 st : EndpointStats} {l0 l : List JVal}
    (h : processFiles d? (st0, l0) fs = .ok (st, l))
    (hst : ∀ p ∈ st0, 1 ≤ p.2.count) : ∀ p ∈ st, 1 ≤ p.2.count := by
  induction fs generalizing st0 l0 with
  | nil =>
    have h2 : (st0, l0) = (st, l) := Except.ok.inj h
    cases h2
    exact hst
  | cons f rest ih =>
    simp only [processFiles] at h
    cases hpl : processLines d? (st0, l0) f with
    | error e =>
      simp only [hpl] at h
      exact absurd h (by simp)
    | ok acc2 =>
      simp only [hpl] at h
      obtain ⟨st1, l1⟩ := acc2
      exact ih h (processLines_counts_pos hpl hst)

/-- Every entry materialized in a run of `parse_logs` has `count ≥ 1`:
entries are created only at the moment a record contributes. -/
theorem parse_logs_counts_pos {fs : List (List String)} {d? : Option Date}
    {st : EndpointStats} {l : List JVal}
    (h : parse_logs fs d? = .ok (st, l)) : ∀ p ∈ st, 1 ≤ p.2.count :=
  processFiles_counts_pos h (by intro p hp; simp at hp)

theorem processRecord_same_date {dd : Date} {r : JVal}
    (hr : recordDateOpt r = some dd) (st : EndpointStats) :
    processRecord (some dd) st r = processRecord none st r := by
  unfold processRecord
  rw [recordDateOpt_some hr]
  simp

theorem processLines_same_date {dd : Date} {lines : List String}
    (hr : ∀ line ∈ lines, ∀ r, jsonDecode line = some r → recordDateOpt r = some dd)
    (st0 : EndpointStats) (l0 : List JVal) :
    processLines (some dd) (st0, l0) lines = processLines none (st0, l0) lines := by
  induction lines generalizing st0 l0 with
  | nil => rfl
  | cons line rest ih =>
    simp only [processLines]
    cases hdec : jsonDecode line with
    | none => simp only [hdec]
    | some r =>
      simp only [hdec]
      rw [processRecord_same_date (hr line (List.mem_cons_self _ _) r hdec)]
      cases hpr : processRecord none st0 r with
      | error e => rfl
      | ok st1 =>
        exact ih (fun l2 hl2 r2 hr2 => hr l2 (List.mem_cons_of_mem _ hl2) r2 hr2) st1 (l0 ++ [r])

theorem processFiles_same_date {dd : Date} {fs : List (List String)}
    (hr : ∀ line ∈ fs.join, ∀ r, jsonDecode line = some r → recordDateOpt r = some dd)
    (st0 : EndpointStats) (l0 : List JVal) :
    processFiles (some dd) (st0, l0) fs = processFiles none (st0, l0) fs := by
  induction fs generalizing st0 l0 with
  | nil => rfl
  | cons f rest ih =>
    simp only [processFiles]
    rw [processLines_same_date (fun l2 hl2 r2 hr2 =>
      hr l2 (by simp [List.mem_append, hl2]) r2 hr2) st0 l0]
    cases hpl : processLines none (st0, l0) f with
    | error e => rfl
    | ok acc2 =>
      obtain ⟨st1, l1⟩ := acc2
      exact ih (fun l2 hl2 r2 hr2 => hr l2 (by simp [List.mem_append, hl2]) r2 hr2) st1 l1

theorem processRecord_other_date {d : Date} {r : JVal} {st st' : EndpointStats}
    (hr : recordDateOpt r ≠ some d) (h : processRecord (some d) st r = .ok st') :
    st' = st := by
  have h2 := processRecord_ok h
  have hc : contributes (some d) r = false := by
    simp [contributes, dateOK, hr]
  rw [hc] at h2
  simpa using h2

theorem processLines_other_date {d : Date} {lines : List String}
    {st0 st : EndpointStats} {l0 l : List JVal}
    (hr : ∀ line ∈ lines, ∀ r, jsonDecode line = some r → recordDateOpt r ≠ some d)
    (h : processLines (some d) (st0, l0) lines = .ok (st, l)) : st = st0 := by
  induction lines generalizing st0 l0 with
  | nil =>
    have h2 : (st0, l0) = (st, l) := Except.ok.inj h
    cases h2
    rfl
  | cons line rest ih =>
    simp only [processLines] at h
    cases hdec : jsonDecode line with
    | none =>
      simp only [hdec] at h
      exact absurd h (by simp)
    | some r =>
      simp only [hdec] at h
      cases hpr : processRecord (some d) st0 r with
      | error e =>
        simp only [hpr] at h
        exact absurd h (by simp)
      | ok st1 =>
        simp only [hpr] at h
        have hst1 : st1 = st0 :=
          processRecord_other_date (hr line (List.mem_cons_self _ _) r hdec) hpr
        subst hst1
        exact ih (fun l2 hl2 r2 hr2 => hr l2 (List.mem_cons_of_mem _ hl2) r2 hr2) h

theorem processFiles_other_date {d : Date} {fs : List (List String)}
    {st0 st : EndpointStats} {l0 l : List JVal}
    (hr : ∀ line ∈ fs.join, ∀ r, jsonDecode line = some r → recordDateOpt r ≠ some d)
    (h : processFiles (some d) (st0, l0) fs = .ok (st, l)) : st = st0 := by
  induction fs generalizing st0 l0 with
  | nil =>
    have h2 : (st0, l0) = (st, l) := Except.ok.inj h
    cases h2
    rfl
  | cons f rest ih =>
    simp only [processFiles] at h
    cases hpl : processLines (some d) (st0, l0) f with
    | error e =>
      simp only [hpl] at h
      exact absurd h (by simp)
    | ok acc2 =>
      simp only [hpl] at h
      obtain ⟨st1, l1⟩ := acc2
      have hst1 : st1 = st0 :=
        processLines_other_date
          (fun l2 hl2 r2 hr2 => hr l2 (by simp [List.mem_append, hl2]) r2 hr2) hpl
      subst hst1
      exact ih (fun l2 hl2 r2 hr2 => hr l2 (by simp [List.mem_append, hl2]) r2 hr2) h

/-- Total of all counts in an agent tally. -/
def sumCounts (m : List (JVal × Nat)) : Nat := (m.map (fun p => p.2)).sum

/-- The count tallied for an agent value, `0` when absent. -/
def agentCount (m : List (JVal × Nat)) (k : JVal) : Nat :=
  ((m.find? (fun p => pyEq p.1 k)).map (fun p => p.2)).getD 0

/-- Whether some key of `ks` is Python-equal to `k`. -/
def inKeys (ks : List JVal) (k : JVal) : Bool := ks.any (fun x => pyEq x k)

/-- The distinct values of a list in order of first appearance, relative to
values already seen: the spec's "one row per distinct agent value, in the
order each distinct value was first encountered". -/
def dedupFirstAux (seen : List JVal) : List JVal → List JVal
  | [] => []
  | k :: ks =>
    if inKeys seen k then dedupFirstAux seen ks
    else k :: dedupFirstAux (seen ++ [k]) ks

/-- The distinct values of a list in order of first appearance. -/
def dedupFirst (l : List JVal) : List JVal := dedupFirstAux [] l

theorem bumpAgent_sum (m : List (JVal × Nat)) (k : JVal) :
    sumCounts (bumpAgent m k) = sumCounts m + 1 := by
  induction m with
  | nil => simp [bumpAgent, sumCounts]
  | cons p t ih =>
    obtain ⟨k0, n⟩ := p
    by_cases h : pyEq k0 k = true
    · simp only [bumpAgent, h, if_true, sumCounts, List.map_cons, List.sum_cons]
      simp [sumCounts] at *
      omega
    · have h2 : pyEq k0 k = false := by simpa using h
      simp only [bumpAgent, h2, Bool.false_eq_true, if_false, sumCounts,
        List.map_cons, List.sum_cons]
      have := ih
      simp only [sumCounts] at this
      omega

theorem agentCount_cons (k0 : JVal) (n : Nat) (t : List (JVal × Nat)) (k : JVal) :
    agentCount ((k0, n) :: t) k = if pyEq k0 k then n else agentCount t k := by
  simp only [agentCount, List.find?]
  cases h : pyEq k0 k <;> simp [h]

theorem agentCount_bump (m : List (JVal × Nat)) (u k : JVal) :
    agentCount (bumpAgent m u) k = agentCount m k + (if pyEq u k then 1 else 0) := by
  induction m with
  | nil =>
    cases h : pyEq u k <;>
      simp [bumpAgent, agentCount, List.find?, h]
  | cons p t ih =>
    obtain ⟨k0, n⟩ := p
    by_cases hk : pyEq k0 u = true
    · simp only [bumpAgent, hk, if_true, agentCount_cons, pyEq_left_congr hk k]
      cases hue : pyEq u k <;> simp [agentCount_cons, hue]
    · have hk2 : pyEq k0 u = false := by simpa using hk
      simp only [bumpAgent, hk2, Bool.false_eq_true, if_false, agentCount_cons]
      cases hke : pyEq k0 k
      · simp [ih]
      · simp [pyEq_of_ne_left hk2 hke]

theorem bumpAgent_keys (m : List (JVal × Nat)) (k : JVal) :
    (bumpAgent m k).map (fun p => p.1) =
      if inKeys (m.map (fun p => p.1)) k then m.map (fun p => p.1)
      else m.map (fun p => p.1) ++ [k] := by
  induction m with
  | nil => simp [bumpAgent, inKeys]
  | cons p t ih =>
    obtain ⟨k0, n⟩ := p
    by_cases h : pyEq k0 k = true
    · simp [bumpAgent, h, inKeys]
    · have h2 : pyEq k0 k = false := by simpa using h
      simp only [bumpAgent, h2, Bool.false_eq_true, if_false, List.map_cons]
      have hin : inKeys ((k0 :: t.map (fun p => p.1) : List JVal)) k =
          inKeys (t.map (fun p => p.1)) k := by
        simp [inKeys, h2]
      rw [hin]
      cases hik : inKeys (t.map (fun p => p.1)) k <;> simp [hik] at ih ⊢ <;> simp [ih]

theorem agentFold_ok {m out : List (JVal × Nat)} {rs : List JVal}
    (h : agentFold m rs = .ok out) :
    sumCounts out = sumCounts m + rs.length ∧
    (∀ k, agentCount out k =
      agentCount m k + (rs.filter (fun r => pyEq (agentKey r) k)).length) ∧
    out.map (fun p => p.1) =
      m.map (fun p => p.1) ++ dedupFirstAux (m.map (fun p => p.1)) (rs.map agentKey) ∧
    (∀ r ∈ rs, jHashable (agentKey r) = true) := by
  induction rs generalizing m with
  | nil =>
    have h2 : m = out := Except.ok.inj h
    subst h2
    simp [dedupFirstAux]
  | cons r rest ih =>
    simp only [agentFold] at h
    cases hh : jHashable (agentKey r) with
    | false =>
      simp only [hh, Bool.false_eq_true, if_false] at h
      exact absurd h (by simp)
    | true =>
      simp only [hh, if_true] at h
      obtain ⟨h1, h2, h3, h4⟩ := ih h
      refine ⟨?_, ?_, ?_, ?_⟩
      · rw [h1, bumpAgent_sum]
        simp [Nat.add_comm, Nat.add_assoc, Nat.add_left_comm]
      · intro k
        rw [h2 k, agentCount_bump]
        simp only [List.filter]
        cases hpe : pyEq (agentKey r) k <;> simp [hpe] <;> omega
      · rw [h3, bumpAgent_keys]
        simp only [List.map_cons, dedupFirstAux]
        cases hik : inKeys (m.map (fun p => p.1)) (agentKey r)
        · simp only [Bool.false_eq_true, if_false]
          rw [List.append_assoc]
          simp
        · simp only [if_true]
      · intro r2 hr2
        rcases List.mem_cons.mp hr2 with h5 | h5
        · subst h5
          exact hh
        · exact h4 r2 h5

theorem agentFold_isOk {rs : List JVal} (m : List (JVal × Nat))
    (hh : ∀ r ∈ rs, jHashable (agentKey r) = true) :
    ∃ out, agentFold m rs = .ok out := by
  induction rs generalizing m with
  | nil => exact ⟨m, rfl⟩
  | cons r rest ih =>
    simp only [agentFold, hh r (List.mem_cons_self _ _), if_true]
    exact ih (bumpAgent m (agentKey r)) (fun r2 hr2 => hh r2 (List.mem_cons_of_mem _ hr2))

theorem foldl_append_eq_map {α β : Type} (f : α → β) (l : List α) (acc : List β) :
    l.foldl (fun a p => a ++ [f p]) acc = acc ++ l.map f := by
  induction l generalizing acc with
  | nil => simp
  | cons x t ih => simp [ih]

/-- A decoded record that `parse_logs` can process without raising: its
`@timestamp`, when present, is a string in a form `fromisoformat` accepts,
and whenever its `url` is truthy and its `response_time` is present and
non-null, the `url` is hashable and the `response_time` is numeric (or a
boolean). -/
def recSafe (r : JVal) : Bool :=
  (recordDate r).isOk &&
    (!(jTruthy (contribKey r) && !jIsNull ((jLookup r "response_time").getD .null)) ||
      (jHashable (contribKey r) && (jToAddend ((jLookup r "response_time").getD .null)).isSome))

theorem contribStep_isOk {st : EndpointStats} {r : JVal}
    (h2 : (!(jTruthy (contribKey r) && !jIsNull ((jLookup r "response_time").getD .null)) ||
      (jHashable (contribKey r) && (jToAddend ((jLookup r "response_time").getD .null)).isSome))
      = true) :
    ∃ st', contribStep st r = .ok st' := by
  unfold contribStep
  cases hc : (jTruthy ((jLookup r "url").getD .null) &&
      !jIsNull ((jLookup r "response_time").getD .null)) with
  | false =>
    refine ⟨st, ?_⟩
    simp [hc]
  | true =>
    have hc2 : (jTruthy (contribKey r) &&
        !jIsNull ((jLookup r "response_time").getD .null)) = true := hc
    rw [hc2] at h2
    simp only [Bool.not_true, Bool.false_or, Bool.and_eq_true] at h2
    obtain ⟨hh, ha⟩ := h2
    have hh2 : jHashable ((jLookup r "url").getD .null) = true := hh
    cases hao : jToAddend ((jLookup r "response_time").getD .null) with
    | none => rw [hao] at ha; exact absurd ha (by simp)
    | some q =>
      refine ⟨statsBump st ((jLookup r "url").getD .null) q, ?_⟩
      simp [hc, hh2, hao]

theorem processRecord_isOk {r : JVal} (hs : recSafe r = true)
    (d? : Option Date) (st : EndpointStats) :
    ∃ st', processRecord d? st r = .ok st' := by
  unfold recSafe at hs
  simp only [Bool.and_eq_true] at hs
  obtain ⟨h1, h2⟩ := hs
  unfold processRecord
  cases hrd : recordDate r with
  | error e =>
    rw [hrd] at h1
    exact absurd h1 (by simp [Except.isOk, Except.toBool])
  | ok ld =>
    cases d? with
    | none => exact contribStep_isOk h2
    | some d =>
      by_cases hld : ld = some d
      · obtain ⟨st', hst⟩ := @contribStep_isOk st r h2
        refine ⟨st', ?_⟩
        show (if ld = some d then contribStep st r else Except.ok st) = Except.ok st'
        rw [if_pos hld]
        exact hst
      · refine ⟨st, ?_⟩
        show (if ld = some d then contribStep st r else Except.ok st) = Except.ok st
        rw [if_neg hld]

theorem processLines_isOk {lines : List String}
    (hs : ∀ line ∈ lines, ∀ r, jsonDecode line = some r → recSafe r = true)
    (hdec : ∀ line ∈ lines, (jsonDecode line).isSome = true)
    (d? : Option Date) (st0 : EndpointStats) (l0 : List JVal) :
    ∃ acc, processLines d? (st0, l0) lines = .ok acc := by
  induction lines generalizing st0 l0 with
  | nil => exact ⟨(st0, l0), rfl⟩
  | cons line rest ih =>
    cases hdl : jsonDecode line with
    | none =>
      have := hdec line (List.mem_cons_self _ _)
      rw [hdl] at this
      exact absurd this (by simp)
    | some r =>
      obtain ⟨st1, hst1⟩ :=
        processRecord_isOk (hs line (List.mem_cons_self _ _) r hdl) d? st0
      obtain ⟨acc, hacc⟩ :=
        ih (fun l2 hl2 r2 hr2 => hs l2 (List.mem_cons_of_mem _ hl2) r2 hr2)
          (fun l2 hl2 => hdec l2 (List.mem_cons_of_mem _ hl2)) st1 (l0 ++ [r])
      refine ⟨acc, ?_⟩
      simp only [processLines, hdl, hst1]
      exact hacc

theorem processFiles_isOk {fs : List (List String)}
    (hs : ∀ line ∈ fs.join, ∀ r, jsonDecode line = some r → recSafe r = true)
    (hdec : ∀ line ∈ fs.join, (jsonDecode line).isSome = true)
    (d? : Option Date) (st0 : EndpointStats) (l0 : List JVal) :
    ∃ acc, processFiles d? (st0, l0) fs = .ok acc := by
  induction fs generalizing st0 l0 with
  | nil => exact ⟨(st0, l0), rfl⟩
  | cons f rest ih =>
    obtain ⟨acc1, hacc1⟩ :=
      @processLines_isOk f
        (fun l2 hl2 r2 hr2 => hs l2 (by simp [List.mem_append, hl2]) r2 hr2)
        (fun l2 hl2 => hdec l2 (by simp [List.mem_append, hl2])) d? st0 l0
    obtain ⟨st1, l1⟩ := acc1
    obtain ⟨acc, hacc⟩ :=
      ih (fun l2 hl2 r2 hr2 => hs l2 (by simp [List.mem_append, hl2]) r2 hr2)
        (fun l2 hl2 => hdec l2 (by simp [List.mem_append, hl2])) st1 l1
    refine ⟨acc, ?_⟩
    show (match processLines d? (st0, l0) f with
      | Except.error e => Except.error e
      | Except.ok acc2 => processFiles d? acc2 rest) = Except.ok acc
    rw [hacc1]
    exact hacc

theorem length_filterMap_of_isSome {α β : Type} {f : α → Option β} {l : List α}
    (h : ∀ a ∈ l, (f a).isSome = true) : (l.filterMap f).length = l.length := by
  induction l with
  | nil => rfl
  | cons a t ih =>
    have ha := h a (List.mem_cons_self _ _)
    cases hfa : f a with
    | none =>
      rw [hfa] at ha
      exact absurd ha (by simp)
    | some b =>
      simp only [List.filterMap_cons, hfa, List.length_cons]
      rw [ih (fun x hx => h x (List.mem_cons_of_mem _ hx))]

set_option maxRecDepth 100000

/-- A log line with a truthy url and a boolean response time. -/
def wLineA : String := "\x7b\"url\": \"/a\", \"response_time\": true\x7d"

/-- The empty JSON object as a log line. -/
def wLineEmpty : String := "\x7b\x7d"

/-- A log line carrying only a user agent. -/
def wLineAgent : String := "\x7b\"http_user_agent\": \"Mozilla\"\x7d"

/-- A log line with timestamp, truthy url and boolean response time. -/
def wLineTs : String :=
  "\x7b\"@timestamp\": \"2025-06-22T12:00:00\", \"url\": \"/a\", \"response_time\": true\x7d"

/-- A log line whose url is present but the empty string. -/
def cexC1Line : String := "\x7b\"url\": \"\", \"response_time\": 5\x7d"

/-- A syntactically valid JSON line whose `@timestamp` is not ISO-8601. -/
def cexC6Line : String := "\x7b\"@timestamp\": \"notadate\"\x7d"

/-- A malformed (non-JSON) log line. -/
def cexBadLine : String := "\x7b"

/-- Claim C1 fails as stated: on the input consisting of the single line
`{"url": "", "response_time": 5}` the run succeeds, the spec-shaped count
(url present and equal to the endpoint, response time present) for the
endpoint `""` is `1`, but the EndpointStats returned by `parse_logs` gives
`""` the count `0` (and holds no entry at all), because the code tests the
truthiness of `url`, not its presence. -/
theorem claim_C1_counterexample :
    (parse_logs [[cexC1Line]] none).isOk = true ∧
    specC1Count none (.str "") (okOr (parse_logs [[cexC1Line]] none)).2 = 1 ∧
    countOf (okOr (parse_logs [[cexC1Line]] none)).1 (.str "") = 0 ∧
    (okOr (parse_logs [[cexC1Line]] none)).1 = [] :=
  ⟨rfl, rfl, rfl, rfl⟩

/-- Claim C1 (amended): for every successful run of `parse_logs`, each
endpoint's count equals the number of decoded records whose `url` is
present, truthy (in particular non-empty) and Python-equal to that
endpoint and whose `response_time` is present and non-null, restricted by
the date filter exactly as claimed; the endpoint's totalResponseTime is
the sum of those records' response times. -/
theorem claim_C1 {fs : List (List String)} {d? : Option Date}
    {st : EndpointStats} {logs : List JVal}
    (h : parse_logs fs d? = .ok (st, logs)) (e : JVal) :
    countOf st e = codeCount d? e logs ∧ totalOf st e = codeTotal d? e logs :=
  ⟨(parse_logs_ok h).2.2.1 e, (parse_logs_ok h).2.2.2 e⟩

/-- Concrete instance of the amended claim C1. -/
theorem claim_C1_witness :
    countOf (okOr (parse_logs [[wLineA, wLineEmpty]] none)).1 (.str "/a") =
      codeCount none (.str "/a") (okOr (parse_logs [[wLineA, wLineEmpty]] none)).2 ∧
    totalOf (okOr (parse_logs [[wLineA, wLineEmpty]] none)).1 (.str "/a") =
      codeTotal none (.str "/a") (okOr (parse_logs [[wLineA, wLineEmpty]] none)).2 ∧
    countOf (okOr (parse_logs [[wLineA, wLineEmpty]] none)).1 (.str "/a") = 1 := by
  have h : parse_logs [[wLineA, wLineEmpty]] none =
      Except.ok (okOr (parse_logs [[wLineA, wLineEmpty]] none)) := rfl
  exact ⟨(claim_C1 h (.str "/a")).1, (claim_C1 h (.str "/a")).2, rfl⟩

/-- Claim C2: on every successful run (in particular whenever every line is
valid JSON and no other error fires), the raw record list is exactly the
decoded records of all files, in file order then line order, every line
decoded, and its length is the total number of decoded lines — for every
value of the optional filter date. -/
theorem claim_C2 {fs : List (List String)} {d? : Option Date}
    {st : EndpointStats} {logs : List JVal}
    (h : parse_logs fs d? = .ok (st, logs)) :
    logs = fs.join.filterMap jsonDecode ∧
    (∀ line ∈ fs.join, (jsonDecode line).isSome = true) ∧
    logs.length = fs.join.length := by
  obtain ⟨ha, hb, _, _⟩ := parse_logs_ok h
  refine ⟨ha, hb, ?_⟩
  rw [ha]
  exact length_filterMap_of_isSome hb

/-- Concrete instance of claim C2: three lines across two files, with a
date filter that matches nothing; the raw list still has length 3. -/
theorem claim_C2_witness :
    (okOr (parse_logs [[wLineTs], [wLineEmpty, wLineAgent]] (some ⟨1999, 1, 1⟩))).2 =
      ([[wLineTs], [wLineEmpty, wLineAgent]] : List (List String)).join.filterMap jsonDecode ∧
    (okOr (parse_logs [[wLineTs], [wLineEmpty, wLineAgent]] (some ⟨1999, 1, 1⟩))).2.length = 3 := by
  have h : parse_logs [[wLineTs], [wLineEmpty, wLineAgent]] (some ⟨1999, 1, 1⟩) =
      Except.ok (okOr (parse_logs [[wLineTs], [wLineEmpty, wLineAgent]] (some ⟨1999, 1, 1⟩))) := rfl
  exact ⟨(claim_C2 h).1, rfl⟩

/-- Claim C3: `AverageResponseTimeReport.generate` returns the title
"Average Response Time Report" and one row `(endpoint, count, average)`
per endpoint key in mapping (insertion) order, where the average is
`totalResponseTime / count` for positive counts and `0` otherwise, with
no sorting and no rounding (exact rational division). -/
theorem claim_C3 (endpoint_stats : EndpointStats) :
    AverageResponseTimeReport.generate "Average Response Time Report" endpoint_stats =
      (endpoint_stats.map (fun p =>
        (p.1, p.2.count, if 0 < p.2.count then p.2.total / (p.2.count : ℚ) else 0)),
        "Average Response Time Report") := by
  unfold AverageResponseTimeReport.generate
  rw [foldl_append_eq_map (fun p : JVal × EpStat =>
    (p.1, p.2.count, if 0 < p.2.count then p.2.total / (p.2.count : ℚ) else 0))]
  simp

/-- Claim C7 fails as it stands on error identification: a malformed line
produces the same decode error — derived from the line's text alone —
whether it is line 1 of file 1, line 2 of file 1, or line 1 of file 2.
The error therefore identifies neither the file nor the line position. -/
theorem claim_C7_counterexample :
    parse_logs [[cexBadLine]] none = .error (.decodeError cexBadLine) ∧
    parse_logs [[wLineEmpty, cexBadLine]] none = .error (.decodeError cexBadLine) ∧
    parse_logs [[wLineEmpty], [cexBadLine]] none = .error (.decodeError cexBadLine) :=
  ⟨rfl, rfl, rfl⟩

/-- Claim C7 (amended): if any line of any input file fails to decode, the
whole invocation of `parse_logs` fails with some error — no partial
EndpointStats or record list is ever returned (all-or-nothing, no per-line
recovery). The error does not name the file. -/
theorem claim_C7 {fs : List (List String)} (d? : Option Date)
    (hbad : ∃ line ∈ fs.join, jsonDecode line = none) :
    ∃ e, parse_logs fs d? = .error e := by
  cases hres : parse_logs fs d? with
  | error e => exact ⟨e, rfl⟩
  | ok p =>
    obtain ⟨st, logs⟩ := p
    obtain ⟨line, hline, hnone⟩ := hbad
    have h2 := (parse_logs_ok hres).2.1 line hline
    rw [hnone] at h2
    exact absurd h2 (by simp)

/-- Concrete instance of the amended claim C7. -/
theorem claim_C7_witness :
    (jsonDecode cexBadLine = none) ∧
    ∃ e, parse_logs [[wLineA, cexBadLine]] none = .error e :=
  ⟨rfl, claim_C7 none ⟨cexBadLine, by simp, rfl⟩⟩

/-- The record decoded from `wLineTs`. -/
def wRecTs : JVal :=
  .obj [("@timestamp", .str "2025-06-22T12:00:00"), ("url", .str "/a"),
    ("response_time", .bool true)]

/-- The record decoded from `wLineAgent`. -/
def wRecAgent : JVal := .obj [("http_user_agent", .str "Mozilla")]

/-- A record list with a repeated agent and a record lacking the field. -/
def wLogsC4 : List JVal :=
  [.obj [("http_user_agent", .str "A")], .obj [], .obj [("http_user_agent", .str "A")]]

/-- Wrapper to name the rows of a successful report generation. -/
def okOrRows (x : Except PErr (List (JVal × Nat) × String)) : List (JVal × Nat) × String :=
  match x with
  | .ok a => a
  | .error _ => ([], "")

/-- Claim C4 fails as stated: on the record list containing the single
record `{"http_user_agent": []}` — which `parse_logs` happily produces
from valid JSON — `UserAgentReport.generate` raises `TypeError`
(an unhashable dict key) instead of returning a report. -/
theorem claim_C4_counterexample :
    UserAgentReport.generate "User Agent Report"
      [JVal.obj [("http_user_agent", JVal.arr [])]] = .error .unhashableKeyError := rfl

/-- Claim C4 (amended): for every record list whose agent values (the
`http_user_agent` value, or the default `"Unknown"` when absent) are all
hashable, `UserAgentReport.generate` returns the title "User Agent Report"
and rows whose keys are exactly the distinct agent values in order of
first appearance, whose counts sum to the length of the record list, and
which tally each agent exactly its number of occurrences. -/
theorem claim_C4 {logs : List JVal}
    (hh : ∀ r ∈ logs, jHashable (agentKey r) = true) :
    ∃ rows, UserAgentReport.generate "User Agent Report" logs = .ok (rows, "User Agent Report") ∧
      rows.map (fun p => p.1) = dedupFirst (logs.map agentKey) ∧
      sumCounts rows = logs.length ∧
      (∀ k, agentCount rows k = (logs.filter (fun r => pyEq (agentKey r) k)).length) := by
  obtain ⟨out, hout⟩ := agentFold_isOk [] hh
  obtain ⟨h1, h2, h3, _⟩ := agentFold_ok hout
  refine ⟨out, ?_, ?_, ?_, ?_⟩
  · show (match agentFold [] logs with
      | Except.error e => Except.error e
      | Except.ok m => Except.ok (m, "User Agent Report")) =
        Except.ok (out, "User Agent Report")
    rw [hout]
  · simpa [dedupFirst] using h3
  · simpa [sumCounts] using h1
  · intro k
    simpa [agentCount] using h2 k

/-- Concrete instance of the amended claim C4. -/
theorem claim_C4_witness :
    (∀ r ∈ wLogsC4, jHashable (agentKey r) = true) ∧
    ∃ rows, UserAgentReport.generate "User Agent Report" wLogsC4 =
        .ok (rows, "User Agent Report") ∧
      rows.map (fun p => p.1) = dedupFirst (wLogsC4.map agentKey) ∧
      sumCounts rows = wLogsC4.length ∧
      (∀ k, agentCount rows k = (wLogsC4.filter (fun r => pyEq (agentKey r) k)).length) := by
  have hh : ∀ r ∈ wLogsC4, jHashable (agentKey r) = true := by
    intro r hr
    fin_cases hr <;> rfl
  exact ⟨hh, claim_C4 hh⟩

/-- Claim C5: (1) when every decoded record's timestamp denotes the date
`dd`, running `parse_logs` with filter `dd` returns exactly the same
result as running it with no filter; (2) when no decoded record's
timestamp denotes the filter date, a successful filtered run returns an
empty EndpointStats — no endpoint received any contribution. -/
theorem claim_C5 :
    (∀ (fs : List (List String)) (dd : Date),
      (∀ line ∈ fs.join, ∀ r, jsonDecode line = some r → recordDateOpt r = some dd) →
      parse_logs fs (some dd) = parse_logs fs none) ∧
    (∀ (fs : List (List String)) (d : Date) (st : EndpointStats) (logs : List JVal),
      (∀ line ∈ fs.join, ∀ r, jsonDecode line = some r → recordDateOpt r ≠ some d) →
      parse_logs fs (some d) = .ok (st, logs) →
      st = [] ∧ ∀ e, countOf st e = 0) := by
  constructor
  · intro fs dd hr
    exact processFiles_same_date hr [] []
  · intro fs d st logs hr h
    have hst : st = [] := processFiles_other_date hr h
    refine ⟨hst, fun e => ?_⟩
    rw [hst]
    rfl

/-- Concrete instance of claim C5: one record dated 2025-06-22; filtering
by that date reproduces the unfiltered run, and filtering by 1999-01-01
leaves the EndpointStats empty. -/
theorem claim_C5_witness :
    parse_logs [[wLineTs]] (some ⟨2025, 6, 22⟩) = parse_logs [[wLineTs]] none ∧
    ((okOr (parse_logs [[wLineTs]] (some ⟨1999, 1, 1⟩))).1 = [] ∧
      ∀ e, countOf (okOr (parse_logs [[wLineTs]] (some ⟨1999, 1, 1⟩))).1 e = 0) := by
  have hdec : jsonDecode wLineTs = some wRecTs := rfl
  constructor
  · refine claim_C5.1 [[wLineTs]] ⟨2025, 6, 22⟩ ?_
    intro line hline r hr
    have hl : line = wLineTs := by simpa using hline
    subst hl
    rw [hdec] at hr
    injection hr with h2
    subst h2
    rfl
  · refine claim_C5.2 [[wLineTs]] ⟨1999, 1, 1⟩
      (okOr (parse_logs [[wLineTs]] (some ⟨1999, 1, 1⟩))).1
      (okOr (parse_logs [[wLineTs]] (some ⟨1999, 1, 1⟩))).2 ?_ ?_
    · intro line hline r hr
      have hl : line = wLineTs := by simpa using hline
      subst hl
      rw [hdec] at hr
      injection hr with h2
      subst h2
      decide
    · rfl

/-- Claim C6 fails as stated: `{"@timestamp": "notadate"}` is a
syntactically valid JSON object, yet `parse_logs` raises the `ValueError`
of `datetime.fromisoformat` instead of succeeding — a malformed line is
not the only hard error. -/
theorem claim_C6_counterexample :
    jsonDecode cexC6Line = some (.obj [("@timestamp", .str "notadate")]) ∧
    parse_logs [[cexC6Line]] none = .error (.timestampValueError "notadate") :=
  ⟨rfl, rfl⟩

/-- Claim C6 (amended): `parse_logs` succeeds on every input whose lines
all decode as JSON, provided additionally that each decoded record is
safe to process: its `@timestamp`, when present, is a string accepted by
`fromisoformat`, and whenever its `url` is truthy with a present non-null
`response_time`, the url is hashable and the response time numeric.
Unrecognized fields and the values of `http_user_agent` never matter. -/
theorem claim_C6 {fs : List (List String)} (d? : Option Date)
    (hdec : ∀ line ∈ fs.join, (jsonDecode line).isSome = true)
    (hs : ∀ line ∈ fs.join, ∀ r, jsonDecode line = some r → recSafe r = true) :
    ∃ st logs, parse_logs fs d? = .ok (st, logs) := by
  obtain ⟨acc, hacc⟩ := processFiles_isOk hs hdec d? [] []
  exact ⟨acc.1, acc.2, hacc⟩

/-- Concrete instance of the amended claim C6. -/
theorem claim_C6_witness :
    (∀ line ∈ ([[wLineTs, wLineAgent]] : List (List String)).join,
      (jsonDecode line).isSome = true) ∧
    ∃ st logs, parse_logs [[wLineTs, wLineAgent]] none = .ok (st, logs) := by
  have hdec : ∀ line ∈ ([[wLineTs, wLineAgent]] : List (List String)).join,
      (jsonDecode line).isSome = true := by
    intro line hline
    fin_cases hline <;> rfl
  have hs : ∀ line ∈ ([[wLineTs, wLineAgent]] : List (List String)).join,
      ∀ r, jsonDecode line = some r → recSafe r = true := by
    intro line hline r hr
    fin_cases hline
    · rw [(rfl : jsonDecode wLineTs = some wRecTs)] at hr
      injection hr with h2
      subst h2
      rfl
    · rw [(rfl : jsonDecode wLineAgent = some wRecAgent)] at hr
      injection hr with h2
      subst h2
      rfl
  exact ⟨hdec, claim_C6 none hdec hs⟩

/-- Claim C8: the user-agent report counts a record lacking
`http_user_agent` under the literal `"Unknown"`; the tally for the key
`"Unknown"` is exactly the number of records whose (defaulted) agent value
is Python-equal to `"Unknown"`; and normalization happens only at read
time in the generator — the stored raw records are exactly the decoded
input lines, so a record lacking the field is stored without it. -/
theorem claim_C8 {fs : List (List String)} {d? : Option Date}
    {st : EndpointStats} {logs : List JVal} {rows : List (JVal × Nat)} {t : String}
    (hp : parse_logs fs d? = .ok (st, logs))
    (hg : UserAgentReport.generate "User Agent Report" logs = .ok (rows, t)) :
    (∀ r ∈ logs, jLookup r "http_user_agent" = none → agentKey r = .str "Unknown") ∧
    agentCount rows (.str "Unknown") =
      (logs.filter (fun r => pyEq (agentKey r) (.str "Unknown"))).length ∧
    (∀ r ∈ logs, ∃ line ∈ fs.join, jsonDecode line = some r) := by
  refine ⟨?_, ?_, ?_⟩
  · intro r _ hnone
    simp [agentKey, hnone]
  · unfold UserAgentReport.generate at hg
    cases hout : agentFold [] logs with
    | error e =>
      simp only [hout] at hg
      exact absurd hg (by simp)
    | ok m =>
      simp only [hout] at hg
      have hpair := Except.ok.inj hg
      have hm : m = rows := congrArg Prod.fst hpair
      obtain ⟨_, h2, _, _⟩ := agentFold_ok hout
      have h3 := h2 (JVal.str "Unknown")
      rw [hm] at h3
      simpa [agentCount] using h3
  · intro r hr
    have ha := (parse_logs_ok hp).1
    rw [ha] at hr
    obtain ⟨line, hline, hsome⟩ := List.mem_filterMap.mp hr
    exact ⟨line, hline, hsome⟩

/-- Concrete instance of claim C8: of two records, one lacks
`http_user_agent`; the "Unknown" row counts exactly that one. -/
theorem claim_C8_witness :
    agentCount (okOrRows (UserAgentReport.generate "User Agent Report"
        (okOr (parse_logs [[wLineEmpty, wLineAgent]] none)).2)).1 (.str "Unknown") =
      ((okOr (parse_logs [[wLineEmpty, wLineAgent]] none)).2.filter
        (fun r => pyEq (agentKey r) (.str "Unknown"))).length ∧
    agentCount (okOrRows (UserAgentReport.generate "User Agent Report"
        (okOr (parse_logs [[wLineEmpty, wLineAgent]] none)).2)).1 (.str "Unknown") = 1 := by
  have hp : parse_logs [[wLineEmpty, wLineAgent]] none =
      Except.ok (okOr (parse_logs [[wLineEmpty, wLineAgent]] none)) := rfl
  have hg : UserAgentReport.generate "User Agent Report"
      (okOr (parse_logs [[wLineEmpty, wLineAgent]] none)).2 =
      Except.ok (okOrRows (UserAgentReport.generate "User Agent Report"
        (okOr (parse_logs [[wLineEmpty, wLineAgent]] none)).2)) := rfl
  exact ⟨(claim_C8 hp hg).2.1, rfl⟩

/-- Claim C9: for every requested report kind other than "average" and
"user-agent", `main` (after a successful parse) prints the unsupported-kind
message and returns normally: no report output, no error propagation. -/
theorem claim_C9 {files : List (List String)} {kind : String} {d? : Option Date}
    {p : EndpointStats × List JVal}
    (hk1 : kind ≠ "average") (hk2 : kind ≠ "user-agent")
    (hp : parse_logs files d? = .ok p) :
    mainRun files kind d? =
      .ok (.message "Currently, only 'average' and 'user-agent' report types are supported.") := by
  obtain ⟨st, logs⟩ := p
  unfold mainRun
  simp only [hp]
  rw [if_neg hk1, if_neg hk2]

/-- Concrete instance of claim C9 with the unsupported kind "bogus". -/
theorem claim_C9_witness :
    mainRun [[wLineEmpty]] "bogus" none =
      .ok (.message "Currently, only 'average' and 'user-agent' report types are supported.") := by
  have hp : parse_logs [[wLineEmpty]] none =
      Except.ok (okOr (parse_logs [[wLineEmpty]] none)) := rfl
  exact claim_C9 (by decide) (by decide) hp

/-- Claim C10: every endpoint key materialized by `parse_logs` has
count ≥ 1, so the `count = 0` fallback of the average report is
unreachable on aggregator-produced stats: the report's rows are always
computed by the division branch and no zero-count row can occur. -/
theorem claim_C10 {fs : List (List String)} {d? : Option Date}
    {st : EndpointStats} {logs : List JVal}
    (h : parse_logs fs d? = .ok (st, logs)) :
    (∀ p ∈ st, 1 ≤ p.2.count) ∧
    (AverageResponseTimeReport.generate "Average Response Time Report" st).1 =
      st.map (fun p => (p.1, p.2.count, p.2.total / (p.2.count : ℚ))) := by
  have hpos := parse_logs_counts_pos h
  refine ⟨hpos, ?_⟩
  unfold AverageResponseTimeReport.generate
  rw [foldl_append_eq_map (fun p : JVal × EpStat =>
    (p.1, p.2.count, if 0 < p.2.count then p.2.total / (p.2.count : ℚ) else 0))]
  simp only [List.nil_append]
  apply List.map_congr_left
  intro p hp
  have h1 : 0 < p.2.count := hpos p hp
  simp [h1]

/-- Concrete instance of claim C10. -/
theorem claim_C10_witness :
    (∀ p ∈ (okOr (parse_logs [[wLineA]] none)).1, 1 ≤ p.2.count) ∧
    (AverageResponseTimeReport.generate "Average Response Time Report"
        (okOr (parse_logs [[wLineA]] none)).1).1 =
      (okOr (parse_logs [[wLineA]] none)).1.map
        (fun p => (p.1, p.2.count, p.2.total / (p.2.count : ℚ))) := by
  have hp : parse_logs [[wLineA]] none =
      Except.ok (okOr (parse_logs [[wLineA]] none)) := rfl
  exact claim_C10 hp
